import Mathlib

/-!
Verification of the turn-orchestration and streaming-aggregation engine of the
general-purpose agent (src/task/agent.py and the tool modules under src/task/tools).

The Python code is shallowly embedded: the streaming delta aggregation loop,
the orchestration recursion, tool dispatch, the MCP resource fetch with base64
decoding, the RAG cache key, and the interpreter output truncation are each
translated into executable Lean definitions, and the spec claims are settled
as theorems about those definitions.

Python strings are modelled as Lean `String` (or `List Char` where slicing
lemmas are needed); byte strings as `List Nat` of values below 256; `None` as
`Option.none`.  Python truthiness of optional string fields (`if x:`) is the
`truthy` predicate below.
-/

namespace Agent

/-! ## Stream aggregation
`GeneralPurposeAgent.handle_request`, src/task/agent.py lines 54-115.
A streamed chunk delta carries an optional `content` string and a list of
tool-call deltas `{index, id?, function? {name?, arguments?}}`. -/

/-- A `delta.tool_calls[k].function` fragment: optional name and argument-text
increments. -/
structure FunctionDelta where
  name : Option String
  arguments : Option String
deriving Repr, DecidableEq

/-- One entry of `delta.tool_calls`: slot index, optional call id, optional
function fragment. -/
structure ToolCallDelta where
  index : Nat
  id : Option String
  function : Option FunctionDelta
deriving Repr, DecidableEq

/-- One streamed chunk delta: optional text content plus tool-call deltas
(both processed by the same loop iteration in `handle_request`). -/
structure Chunk where
  content : Option String
  tool_calls : List ToolCallDelta
deriving Repr, DecidableEq

/-- An aggregated entry of `tool_call_index_map`: the Python dict
`{id, type: function, function: {name, arguments}}`, with the constant
`type` field omitted. -/
structure ToolCallRecord where
  id : String
  name : String
  arguments : String
deriving Repr, DecidableEq

/-- Python truthiness of an optional string field
(`if x:` on `Optional[str]`): present and non-empty. -/
def truthy : Option String → Bool
  | none => false
  | some s => !(s == "")

/-- `tool_call_index_map`: a Python dict from slot index to record, in
insertion order. -/
abbrev SlotMap := List (Nat × ToolCallRecord)

/-- Python dict assignment `m[k] = v`: replaces the value in place if the key
exists (keeping its position), otherwise appends at the end. -/
def SlotMap.setKey : SlotMap → Nat → ToolCallRecord → SlotMap
  | [], k, v => [(k, v)]
  | p :: rest, k, v => if p.1 = k then (k, v) :: rest else p :: SlotMap.setKey rest k v

/-- Python dict lookup `m[k]` / `k in m`. -/
def SlotMap.getKey : SlotMap → Nat → Option ToolCallRecord
  | [], _ => none
  | p :: rest, k => if p.1 = k then some p.2 else SlotMap.getKey rest k

/-- Lines 93-99 of agent.py: a truthy `function.name` fragment overwrites the
stored name (plain assignment), and the argument fragment (defaulted to the
empty string when absent or falsy) is appended to the stored arguments. -/
def applyFunctionDelta (tc : ToolCallRecord) (f : Option FunctionDelta) : ToolCallRecord :=
  match f with
  | none => tc
  | some fd =>
    let tc1 := if truthy fd.name then { tc with name := fd.name.getD "" } else tc
    { tc1 with arguments := tc1.arguments ++ fd.arguments.getD "" }

/-- Lines 74-99 of agent.py, the body of `for tool_call_delta in delta.tool_calls`:
a truthy `id` stores a fresh record for the slot (overwriting any existing one);
then, if the slot is present in the map, the function fragment is applied. -/
def ingestToolCallDelta (m : SlotMap) (d : ToolCallDelta) : SlotMap :=
  let m1 := if truthy d.id then m.setKey d.index ⟨d.id.getD "", "", ""⟩ else m
  match m1.getKey d.index with
  | none => m1
  | some tc => m1.setKey d.index (applyFunctionDelta tc d.function)

/-- The aggregation state built by the streaming loop: the running `content`
buffer and `tool_call_index_map`. -/
structure AggState where
  content : String
  tool_call_index_map : SlotMap
deriving Repr, DecidableEq

/-- Lines 66-99 of agent.py, one loop iteration over a chunk delta: truthy
text content is appended to the buffer, then each tool-call delta is ingested
in order. -/
def ingestChunk (st : AggState) (c : Chunk) : AggState :=
  let st1 := if truthy c.content then { st with content := st.content ++ c.content.getD "" } else st
  { st1 with tool_call_index_map := c.tool_calls.foldl ingestToolCallDelta st1.tool_call_index_map }

/-- The whole streaming loop: fold the chunk deltas in arrival order starting
from the empty state (`content = ""`, empty map). -/
def aggregate (chunks : List Chunk) : AggState :=
  chunks.foldl ingestChunk ⟨"", []⟩

/-- The finalized assistant turn (lines 102-115 of agent.py): accumulated text
and the records of `tool_call_index_map.values()` in insertion order. -/
structure AssistantTurn where
  text : String
  tool_calls : List ToolCallRecord
deriving Repr, DecidableEq

/-- Lines 102-115 of agent.py: build the assistant message from the
aggregation state. -/
def finalizeTurn (st : AggState) : AssistantTurn :=
  ⟨st.content, st.tool_call_index_map.map Prod.snd⟩

/-! ### Basic `SlotMap` lemmas -/

theorem SlotMap.getKey_setKey_self (m : SlotMap) (k : Nat) (v : ToolCallRecord) :
    (m.setKey k v).getKey k = some v := by
  induction m with
  | nil => simp [SlotMap.setKey, SlotMap.getKey]
  | cons p rest ih =>
    by_cases h : p.1 = k
    · simp [SlotMap.setKey, SlotMap.getKey, h]
    · simp [SlotMap.setKey, SlotMap.getKey, h, ih]

theorem SlotMap.setKey_setKey_self (m : SlotMap) (k : Nat) (v w : ToolCallRecord) :
    (m.setKey k v).setKey k w = m.setKey k w := by
  induction m with
  | nil => simp [SlotMap.setKey]
  | cons p rest ih =>
    by_cases h : p.1 = k
    · simp [SlotMap.setKey, h]
    · simp [SlotMap.setKey, h, ih]

/-- Unfolding equation for `ingestToolCallDelta` when the fragment carries a
truthy id: a fresh record is stored and the fragment's own function part is
applied to it. -/
theorem ingest_with_id (m : SlotMap) (i : Nat) (oid : Option String)
    (f : Option FunctionDelta) (h : truthy oid = true) :
    ingestToolCallDelta m ⟨i, oid, f⟩ =
      m.setKey i (applyFunctionDelta ⟨oid.getD "", "", ""⟩ f) := by
  simp [ingestToolCallDelta, h, SlotMap.getKey_setKey_self, SlotMap.setKey_setKey_self]

/-- Unfolding equation for `ingestToolCallDelta` without a truthy id on an
absent slot: the fragment is dropped. -/
theorem ingest_no_id_absent (m : SlotMap) (i : Nat) (oid : Option String)
    (f : Option FunctionDelta) (h : truthy oid = false) (hm : m.getKey i = none) :
    ingestToolCallDelta m ⟨i, oid, f⟩ = m := by
  simp [ingestToolCallDelta, h, hm]

/-- Unfolding equation for `ingestToolCallDelta` without a truthy id on a
present slot: the function part is applied to the stored record. -/
theorem ingest_no_id_present (m : SlotMap) (i : Nat) (oid : Option String)
    (f : Option FunctionDelta) (tc : ToolCallRecord) (h : truthy oid = false)
    (hm : m.getKey i = some tc) :
    ingestToolCallDelta m ⟨i, oid, f⟩ = m.setKey i (applyFunctionDelta tc f) := by
  simp [ingestToolCallDelta, h, hm]

/-! ### C1: record creation on id-bearing fragments -/

/-- C1, counterexample.  The claim says a second id-bearing fragment for an
already-created slot makes aggregation fail with `StreamProtocolError` and that
the accumulated name and argument text are never discarded.  In the code
(agent.py lines 78-86) there is no failure path at all: the second id-bearing
fragment silently overwrites the slot record.  Concretely, after a fragment
creating slot 0 with id `call_a`, name `f`, arguments `x`, a second fragment
with id `call_b` yields a finalized turn whose slot-0 record is
`⟨call_b, empty, empty⟩`: a turn IS produced and the accumulated name and
arguments ARE discarded. -/
theorem c1_counterexample :
    finalizeTurn (aggregate
        [⟨none, [⟨0, some "call_a", some ⟨some "f", some "x"⟩⟩]⟩,
         ⟨none, [⟨0, some "call_b", none⟩]⟩]) =
      ⟨"", [⟨"call_b", "", ""⟩]⟩ := by rfl

/-- C1, amended: every id-bearing fragment for a slot (re)creates the record
for that slot.  Whatever the map held at that index, the result stores the
record built from the fresh `⟨id, empty, empty⟩` with the same fragment's
function part applied — the previously accumulated name and argument text are
discarded and aggregation never fails. -/
theorem c1_amended_id_recreates_record (m : SlotMap) (d : ToolCallDelta)
    (h : truthy d.id = true) :
    ingestToolCallDelta m d =
      m.setKey d.index (applyFunctionDelta ⟨d.id.getD "", "", ""⟩ d.function) := by
  simp [ingestToolCallDelta, h, SlotMap.getKey_setKey_self, SlotMap.setKey_setKey_self]

/-- C1, witness: the amended theorem applied at a concrete slot map and
id-bearing fragment. -/
theorem c1_amended_witness :
    truthy (some "call_b") = true ∧
    ingestToolCallDelta [(0, ⟨"call_a", "f", "x"⟩)] ⟨0, some "call_b", none⟩ =
      SlotMap.setKey [(0, ⟨"call_a", "f", "x"⟩)] 0
        (applyFunctionDelta ⟨"call_b", "", ""⟩ none) :=
  ⟨by decide, c1_amended_id_recreates_record [(0, ⟨"call_a", "f", "x"⟩)]
    ⟨0, some "call_b", none⟩ (by decide)⟩

/-! ### C2: increments arriving before an id -/

/-- C2, counterexample.  The claim says name/argument increments arriving for
a slot before any id are accepted and present in the finalized record.  In the
code (agent.py lines 88-99) a fragment for a slot that is not yet in
`tool_call_index_map` is silently dropped.  Concretely, a first fragment for
slot 0 carrying name `f` and arguments `x` but no id, followed by an
id-bearing fragment, finalizes to a record with empty name and arguments:
the pre-id increments are absent. -/
theorem c2_counterexample :
    finalizeTurn (aggregate
        [⟨none, [⟨0, none, some ⟨some "f", some "x"⟩⟩]⟩,
         ⟨none, [⟨0, some "call_a", none⟩]⟩]) =
      ⟨"", [⟨"call_a", "", ""⟩]⟩ := by rfl

/-- C2, amended: a tool-call fragment without a truthy id for a slot that has
no record yet leaves the aggregation map unchanged — pre-id increments are
dropped, not accumulated. -/
theorem c2_amended_pre_id_increments_dropped (m : SlotMap) (d : ToolCallDelta)
    (hid : truthy d.id = false) (habs : m.getKey d.index = none) :
    ingestToolCallDelta m d = m := by
  simp [ingestToolCallDelta, hid, habs]

/-- C2, witness: the amended theorem applied at the empty map and a concrete
id-less fragment. -/
theorem c2_amended_witness :
    truthy (none : Option String) = false ∧
    SlotMap.getKey [] 0 = none ∧
    ingestToolCallDelta [] ⟨0, none, some ⟨some "f", some "x"⟩⟩ = [] :=
  ⟨by decide, by decide,
    c2_amended_pre_id_increments_dropped [] ⟨0, none, some ⟨some "f", some "x"⟩⟩
      (by decide) (by decide)⟩

/-! ### C7: split-invariance of aggregation -/

/-- C7, counterexample.  The claim says re-splitting any text, name, or
argument-text increment yields an identical finalized turn.  The code assigns
the name (agent.py line 95, `=` not `+=`), so splitting a name increment
`fg` into `f` then `g` finalizes to name `g`, not `fg`. -/
theorem c7_counterexample :
    finalizeTurn (aggregate [⟨none, [⟨0, some "i", some ⟨some "fg", none⟩⟩]⟩]) =
        ⟨"", [⟨"i", "fg", ""⟩]⟩ ∧
    finalizeTurn (aggregate
        [⟨none, [⟨0, some "i", some ⟨some "f", none⟩⟩]⟩,
         ⟨none, [⟨0, none, some ⟨some "g", none⟩⟩]⟩]) =
        ⟨"", [⟨"i", "g", ""⟩]⟩ ∧
    (⟨"", [⟨"i", "fg", ""⟩]⟩ : AssistantTurn) ≠ ⟨"", [⟨"i", "g", ""⟩]⟩ := by
  refine ⟨rfl, rfl, ?_⟩
  decide

/-- Appending a split argument increment commutes with a single combined one:
the stored name and id are unaffected and argument concatenation is
associative. -/
theorem applyFunctionDelta_split (tc : ToolCallRecord) (oname : Option String)
    (s t : String) :
    applyFunctionDelta (applyFunctionDelta tc (some ⟨oname, some s⟩)) (some ⟨none, some t⟩) =
      applyFunctionDelta tc (some ⟨oname, some (s ++ t)⟩) := by
  by_cases h : truthy oname = true
  · simp [applyFunctionDelta, truthy, h, String.append_assoc]
  · have h' : truthy oname = false := by revert h; cases truthy oname <;> simp
    simp [applyFunctionDelta, truthy, h', String.append_assoc]

/-- Splitting an argument-text increment of one tool-call fragment into two
consecutive fragments (the second carrying only the remainder, same slot, no
id, no name) leaves the slot map unchanged. -/
theorem ingest_args_split (m : SlotMap) (i : Nat) (oid oname : Option String)
    (s t : String) :
    ingestToolCallDelta (ingestToolCallDelta m ⟨i, oid, some ⟨oname, some s⟩⟩)
        ⟨i, none, some ⟨none, some t⟩⟩ =
      ingestToolCallDelta m ⟨i, oid, some ⟨oname, some (s ++ t)⟩⟩ := by
  by_cases hid : truthy oid = true
  · rw [ingest_with_id _ _ _ _ hid, ingest_with_id _ _ _ _ hid,
      ingest_no_id_present _ _ none _ _ (by rfl) (SlotMap.getKey_setKey_self _ _ _),
      SlotMap.setKey_setKey_self, applyFunctionDelta_split]
  · have hid' : truthy oid = false := by revert hid; cases truthy oid <;> simp
    cases hm : SlotMap.getKey m i with
    | none =>
      rw [ingest_no_id_absent _ _ _ _ hid' hm,
        ingest_no_id_absent _ _ none _ (by rfl) hm,
        ingest_no_id_absent _ _ _ _ hid' hm]
    | some tc =>
      rw [ingest_no_id_present _ _ _ _ _ hid' hm,
        ingest_no_id_present _ _ none _ _ (by rfl) (SlotMap.getKey_setKey_self _ _ _),
        SlotMap.setKey_setKey_self, applyFunctionDelta_split,
        ingest_no_id_present _ _ _ _ _ hid' hm]

/-- A pure text chunk appends its content to the buffer and leaves the slot
map unchanged (also when the content is the empty string, where the
truthiness guard skips an append that would be a no-op anyway). -/
theorem ingestChunk_text (st : AggState) (s : String) :
    ingestChunk st ⟨some s, []⟩ = ⟨st.content ++ s, st.tool_call_index_map⟩ := by
  by_cases h : s = ""
  · subst h; simp [ingestChunk, truthy]
  · simp [ingestChunk, truthy, h]

/-- A chunk with a single tool-call fragment and no text applies exactly that
fragment to the slot map. -/
theorem ingestChunk_delta (st : AggState) (d : ToolCallDelta) :
    ingestChunk st ⟨none, [d]⟩ =
      ⟨st.content, ingestToolCallDelta st.tool_call_index_map d⟩ := by
  simp [ingestChunk, truthy]

/-- C7, amended: aggregation is split-invariant for text increments and for
argument-text increments — re-splitting either kind of increment into two
consecutive fragments (same slot tagging, preserved order) yields the same
aggregation state, hence the same finalized turn.  (Per the counterexample,
the claim fails for name increments, which are overwritten rather than
concatenated.) -/
theorem c7_amended_split_invariance (pre post : List Chunk) (s t : String) :
    (aggregate (pre ++ ⟨some (s ++ t), []⟩ :: post) =
       aggregate (pre ++ ⟨some s, []⟩ :: ⟨some t, []⟩ :: post)) ∧
    ∀ (i : Nat) (oid oname : Option String),
      aggregate (pre ++ ⟨none, [⟨i, oid, some ⟨oname, some (s ++ t)⟩⟩]⟩ :: post) =
        aggregate (pre ++ ⟨none, [⟨i, oid, some ⟨oname, some s⟩⟩]⟩ ::
          ⟨none, [⟨i, none, some ⟨none, some t⟩⟩]⟩ :: post) := by
  constructor
  · simp only [aggregate, List.foldl_append, List.foldl_cons]
    rw [ingestChunk_text, ingestChunk_text, ingestChunk_text, String.append_assoc]
  · intro i oid oname
    simp only [aggregate, List.foldl_append, List.foldl_cons]
    rw [ingestChunk_delta, ingestChunk_delta, ingestChunk_delta, ingest_args_split]

/-! ## Tool messages and history
The data carried between the orchestrator and the per-call tasks
(src/task/agent.py lines 117-193). -/

/-- A tool-role message as returned by `_process_tool_call` (a dict with
role, content and tool_call_id). -/
structure ToolMessage where
  role : String
  content : String
  tool_call_id : String
deriving Repr, DecidableEq

/-- One entry of the accumulated tool-call history
(`state[TOOL_CALL_HISTORY_KEY]`). -/
inductive HistoryEntry
  | assistant (turn : AssistantTurn)
  | tool (msg : ToolMessage)
deriving Repr, DecidableEq

/-! ## Tool dispatch ordering
agent.py lines 124-130: the tasks are created in `tool_calls` order and joined
with `asyncio.gather`, which places each task's result at the task's input
position regardless of completion order. -/

/-- The result list of one turn's dispatch: one result per call, in input
order. -/
def dispatchResults (exec : ToolCallRecord → ToolMessage)
    (calls : List ToolCallRecord) : List ToolMessage :=
  calls.map exec

/-- Completion-schedule semantics of `asyncio.gather`: `order` lists the
positions of the per-call tasks in the order they complete; each completing
task stores its own result at its own input position.  `none` marks a slot
whose task has not completed. -/
def gatherBySchedule (exec : ToolCallRecord → ToolMessage)
    (calls : List ToolCallRecord) (order : List Nat) : List (Option ToolMessage) :=
  order.foldl
    (fun acc j =>
      match calls[j]? with
      | some c => acc.set j (some (exec c))
      | none => acc)
    (List.replicate calls.length none)

/-- What each slot of the gather accumulator holds after folding a schedule:
slots whose index was scheduled (and is in range) hold their call's result,
all others are untouched. -/
theorem gather_foldl_getElem (exec : ToolCallRecord → ToolMessage)
    (calls : List ToolCallRecord) (order : List Nat) :
    ∀ (acc : List (Option ToolMessage)), acc.length = calls.length →
      ∀ i : Nat,
        (order.foldl
            (fun acc j =>
              match calls[j]? with
              | some c => acc.set j (some (exec c))
              | none => acc)
            acc)[i]? =
          if i ∈ order ∧ i < calls.length then (calls[i]?).map (fun c => some (exec c))
          else acc[i]? := by
  induction order with
  | nil => intro acc hlen i; simp
  | cons j rest ih =>
    intro acc hlen i
    simp only [List.foldl_cons]
    rcases hj : calls[j]? with _ | c
    · simp only [hj]
      rw [ih acc hlen i]
      by_cases hij : i = j
      · subst hij
        have hni : ¬ i < calls.length := by
          intro hlt
          rw [List.getElem?_eq_getElem hlt] at hj
          cases hj
        simp [hni]
      · simp [List.mem_cons, hij]
    · simp only [hj]
      rw [ih (acc.set j (some (exec c))) (by simp [hlen]) i]
      by_cases hij : i = j
      · subst hij
        have hilt : i < calls.length := by
          by_contra hn
          rw [List.getElem?_eq_none (Nat.le_of_not_lt hn)] at hj
          cases hj
        have hacc : i < acc.length := by rw [hlen]; exact hilt
        by_cases hmem : i ∈ rest
        · simp [hmem, hilt, hj]
        · simp [hmem, hilt, List.getElem?_set_self hacc, hj]
      · have hset : (acc.set j (some (exec c)))[i]? = acc[i]? :=
          List.getElem?_set_ne (fun hji => hij hji.symm)
        simp [List.mem_cons, hij, hset]

/-- C4: for every completion schedule that is a permutation of the task
positions (every task completes, in any interleaving), the joined result list
equals the input-order result list: same length as the input, with the i-th
slot holding the result of the i-th call. -/
theorem c4_gather_preserves_order (exec : ToolCallRecord → ToolMessage)
    (calls : List ToolCallRecord) (order : List Nat)
    (h : order.Perm (List.range calls.length)) :
    gatherBySchedule exec calls order = (dispatchResults exec calls).map some ∧
    (dispatchResults exec calls).length = calls.length := by
  constructor
  · apply List.ext_getElem?
    intro i
    rw [gatherBySchedule, gather_foldl_getElem exec calls order _ (by simp) i]
    have hmem : i ∈ order ↔ i < calls.length := by
      rw [h.mem_iff, List.mem_range]
    by_cases hi : i < calls.length
    · simp [hmem.mpr hi, hi, dispatchResults, Option.map_map]
    · have hno : i ∉ order := fun hmem1 => hi (hmem.mp hmem1)
      simp [hno, hi, dispatchResults, List.getElem?_replicate,
        List.getElem?_eq_none (Nat.le_of_not_lt hi)]
  · simp [dispatchResults]

/-- C4, witness: a two-call turn whose tasks complete in reversed order still
yields the input-order result list. -/
theorem c4_gather_witness :
    ([1, 0] : List Nat).Perm (List.range 2) ∧
    (gatherBySchedule (fun tc => ⟨"tool", "ok", tc.id⟩)
          [⟨"a", "f", ""⟩, ⟨"b", "g", ""⟩] [1, 0] =
        (dispatchResults (fun tc => ⟨"tool", "ok", tc.id⟩)
            [⟨"a", "f", ""⟩, ⟨"b", "g", ""⟩]).map some ∧
      (dispatchResults (fun tc => ⟨"tool", "ok", tc.id⟩)
          [⟨"a", "f", ""⟩, ⟨"b", "g", ""⟩]).length = 2) :=
  ⟨by decide,
   c4_gather_preserves_order (fun tc => ⟨"tool", "ok", tc.id⟩)
     [⟨"a", "f", ""⟩, ⟨"b", "g", ""⟩] [1, 0] (by decide)⟩

/-! ## Per-call processing
`GeneralPurposeAgent._process_tool_call`, src/task/agent.py lines 157-193.
`json.loads` is abstracted as a success predicate `parses` on the argument
text; a raised exception is an `Except.error`. -/

/-- The single-quote character, spelled out so the error strings below match
agent.py verbatim. -/
def squote : String := String.singleton (Char.ofNat 39)

/-- A registered tool as `_process_tool_call` sees it: its name, the
`show_in_stage` flag, and its `execute` behavior (producing the dict with
role, content, tool_call_id returned to the orchestrator). -/
structure RegisteredTool where
  name : String
  show_in_stage : Bool
  execute : ToolCallRecord → ToolMessage

/-- `self._tools_dict = {tool.name: tool for tool in tools}` followed by
`.get(name)`: a dict comprehension keeps the last tool with a given name. -/
def toolsDict (tools : List RegisteredTool) : String → Option RegisteredTool :=
  fun n => tools.reverse.find? (fun t => t.name == n)

/-- `_process_tool_call` (agent.py lines 157-193).  An unknown name short
circuits to the not-found message; for a known tool with `show_in_stage`,
line 176 runs `json.loads(tool_call.function.arguments)` outside every
handler, so an unparsable argument text raises out of the task
(`Except.error`); otherwise the tool's `execute` result is returned. -/
def process_tool_call (parses : String → Bool) (tools : List RegisteredTool)
    (tc : ToolCallRecord) : Except Unit ToolMessage :=
  match toolsDict tools tc.name with
  | none =>
    .ok ⟨"tool", "Error: Tool " ++ squote ++ tc.name ++ squote ++ " not found", tc.id⟩
  | some tool =>
    if tool.show_in_stage && !(parses tc.arguments) then .error ()
    else .ok (tool.execute tc)

/-- `asyncio.gather` over the per-call tasks: if any task raises, the
exception propagates to `handle_request` (aborting the turn and discarding
the sibling results); otherwise all results are returned in task order. -/
def gatherExcept : List (Except Unit ToolMessage) → Except Unit (List ToolMessage)
  | [] => .ok []
  | x :: rest =>
    match x with
    | .error e => .error e
    | .ok m =>
      match gatherExcept rest with
      | .error e => .error e
      | .ok ms => .ok (m :: ms)

/-- One turn's dispatch: a task per call in list order, joined by gather. -/
def dispatch_turn (parses : String → Bool) (tools : List RegisteredTool)
    (calls : List ToolCallRecord) : Except Unit (List ToolMessage) :=
  gatherExcept (calls.map (process_tool_call parses tools))

/-- A raising task anywhere in the batch aborts the whole gather. -/
theorem gatherExcept_error_mem (xs : List (Except Unit ToolMessage))
    (h : (Except.error () : Except Unit ToolMessage) ∈ xs) :
    gatherExcept xs = .error () := by
  induction xs with
  | nil => cases h
  | cons x rest ih =>
    cases x with
    | error e => rfl
    | ok m =>
      have hr : (Except.error () : Except Unit ToolMessage) ∈ rest := by
        cases h with
        | tail _ h1 => exact h1
      simp [gatherExcept, ih hr]

/-- Gathering a batch whose prefix succeeds splits into the prefix results
followed by the gather of the rest. -/
theorem gatherExcept_append_ok (xs ys : List (Except Unit ToolMessage))
    (rs : List ToolMessage) (h : gatherExcept xs = .ok rs) :
    gatherExcept (xs ++ ys) =
      match gatherExcept ys with
      | .error e => .error e
      | .ok ms => .ok (rs ++ ms) := by
  induction xs generalizing rs with
  | nil =>
    simp only [gatherExcept] at h
    cases h
    simp only [List.nil_append]
    cases hys : gatherExcept ys <;> simp
  | cons x rest ih =>
    cases x with
    | error e => simp [gatherExcept] at h
    | ok m =>
      simp only [gatherExcept] at h
      cases hrest : gatherExcept rest with
      | error e => rw [hrest] at h; cases h
      | ok ms =>
        rw [hrest] at h
        cases h
        simp only [List.cons_append, gatherExcept, List.append_eq]
        rw [ih ms hrest]
        cases hys : gatherExcept ys <;> simp

/-- A turn in which one call yields message `msg` and the calls before and
after it all succeed with `res1` and `res2` gathers to
`res1 ++ msg :: res2` — the siblings' results are exactly what they are
without the middle call. -/
theorem dispatch_turn_append_ok (parses : String → Bool) (tools : List RegisteredTool)
    (pre post : List ToolCallRecord) (tc : ToolCallRecord) (msg : ToolMessage)
    (res1 res2 : List ToolMessage)
    (hm : process_tool_call parses tools tc = .ok msg)
    (h1 : dispatch_turn parses tools pre = .ok res1)
    (h2 : dispatch_turn parses tools post = .ok res2) :
    dispatch_turn parses tools (pre ++ tc :: post) = .ok (res1 ++ msg :: res2) := by
  unfold dispatch_turn at h1 h2 ⊢
  rw [List.map_append, gatherExcept_append_ok _ _ _ h1, List.map_cons]
  simp only [gatherExcept, hm, h2]

/-! ### C5: unknown tool name -/

/-- C5, counterexample.  The claim says the result content is exactly
`Tool <squote><name><squote> not found`; agent.py line 169 produces
`Error: Tool <squote><name><squote> not found`, which differs. -/
theorem c5_counterexample :
    process_tool_call (fun _ => true) [] ⟨"id1", "mytool", "args"⟩ =
      .ok ⟨"tool", "Error: Tool " ++ squote ++ "mytool" ++ squote ++ " not found",
        "id1"⟩ ∧
    "Error: Tool " ++ squote ++ "mytool" ++ squote ++ " not found" ≠
      "Tool " ++ squote ++ "mytool" ++ squote ++ " not found" := by
  constructor
  · rfl
  · decide

/-- C5, amended: a call whose name is not in the tools dict produces — for
every parser and regardless of any tool's `execute` behavior, none of which
appears in the result — the message
`Error: Tool <squote><name><squote> not found` with the call's id, and the
sibling calls of the turn still gather to exactly their own results around
it. -/
theorem c5_amended_unknown_tool (parses : String → Bool) (tools : List RegisteredTool)
    (tc : ToolCallRecord) (h : toolsDict tools tc.name = none) :
    process_tool_call parses tools tc =
      .ok ⟨"tool", "Error: Tool " ++ squote ++ tc.name ++ squote ++ " not found",
        tc.id⟩ ∧
    ∀ pre post res1 res2,
      dispatch_turn parses tools pre = .ok res1 →
      dispatch_turn parses tools post = .ok res2 →
      dispatch_turn parses tools (pre ++ tc :: post) =
        .ok (res1 ++
          (⟨"tool", "Error: Tool " ++ squote ++ tc.name ++ squote ++ " not found",
            tc.id⟩ : ToolMessage) :: res2) := by
  have hp : process_tool_call parses tools tc =
      .ok ⟨"tool", "Error: Tool " ++ squote ++ tc.name ++ squote ++ " not found",
        tc.id⟩ := by
    simp [process_tool_call, h]
  exact ⟨hp, fun pre post res1 res2 h1 h2 =>
    dispatch_turn_append_ok parses tools pre post tc _ res1 res2 hp h1 h2⟩

/-- C5, witness: the amended theorem at the empty registry and a one-call
turn. -/
theorem c5_amended_witness :
    toolsDict [] "mytool" = none ∧
    dispatch_turn (fun _ => true) [] ([] ++ ⟨"id1", "mytool", "args"⟩ :: []) =
      .ok ([] ++
        (⟨"tool", "Error: Tool " ++ squote ++ "mytool" ++ squote ++ " not found",
          "id1"⟩ : ToolMessage) :: []) :=
  ⟨rfl,
    (c5_amended_unknown_tool (fun _ => true) [] ⟨"id1", "mytool", "args"⟩ rfl).2
      [] [] [] [] rfl rfl⟩

/-! ### C6: unparsable argument text -/

/-- Modelled from the spec: `BaseTool.execute` lives in task/tools/base.py, a
file of this repository that is not under src/ (only its subclasses and its
caller `_process_tool_call` are).  Per spec sections 4.3 and 7, argument
parsing for a present tool happens at the capability boundary and an
unparsable argument text (`ToolArgumentError`) is \"caught and converted to
an error ToolResult for that call only\".  The wrapped `_execute` body is
abstracted as `run`; the spec fixes no concrete error text, so a fixed
message stands for the converted error result. -/
def specBaseToolExecute (parses : String → Bool) (run : ToolCallRecord → ToolMessage)
    (tc : ToolCallRecord) : ToolMessage :=
  if parses tc.arguments then run tc
  else ⟨"tool", "Error: invalid tool arguments", tc.id⟩

/-- The error result that `specBaseToolExecute` produces on a parse
failure. -/
def toolArgumentErrorMessage (tc : ToolCallRecord) : ToolMessage :=
  ⟨"tool", "Error: invalid tool arguments", tc.id⟩

/-- C6, counterexample.  The claim says a parse failure on a registered
tool's arguments is always caught and the turn is not aborted.  But for a
tool with `show_in_stage`, agent.py line 176 parses the arguments outside
every handler, so the task raises and the gather — hence the whole turn —
aborts, discarding the sibling call's result (the sibling alone would have
succeeded). -/
theorem c6_counterexample :
    dispatch_turn (fun s => s == "good")
        [⟨"t", true, fun tc => ⟨"tool", "done", tc.id⟩⟩]
        [⟨"id0", "t", "good"⟩, ⟨"id1", "t", "bad"⟩] = .error () ∧
    process_tool_call (fun s => s == "good")
        [⟨"t", true, fun tc => ⟨"tool", "done", tc.id⟩⟩]
        ⟨"id0", "t", "good"⟩ = .ok ⟨"tool", "done", "id0"⟩ := by
  constructor
  · rfl
  · rfl

/-- C6, amended: what happens on a registered tool whose argument text does
not parse depends on `show_in_stage`.  If the tool is shown in stage, the
failure escapes `_process_tool_call` (agent.py line 176) and every turn
containing the call aborts.  If it is not shown in stage and the tool's
`execute` is the spec-modelled wrapper, the failure is converted into an
error result for that call only and the sibling calls still gather to
exactly their own results. -/
theorem c6_parse_failure_by_stage (parses : String → Bool)
    (tools : List RegisteredTool) (tc : ToolCallRecord) (t : RegisteredTool)
    (hlook : toolsDict tools tc.name = some t)
    (hparse : parses tc.arguments = false) :
    (t.show_in_stage = true →
      process_tool_call parses tools tc = .error () ∧
      ∀ pre post, dispatch_turn parses tools (pre ++ tc :: post) = .error ()) ∧
    (t.show_in_stage = false →
      ∀ run, t.execute = specBaseToolExecute parses run →
        process_tool_call parses tools tc = .ok (toolArgumentErrorMessage tc) ∧
        ∀ pre post res1 res2,
          dispatch_turn parses tools pre = .ok res1 →
          dispatch_turn parses tools post = .ok res2 →
          dispatch_turn parses tools (pre ++ tc :: post) =
            .ok (res1 ++ toolArgumentErrorMessage tc :: res2)) := by
  constructor
  · intro hshow
    have hp : process_tool_call parses tools tc = .error () := by
      simp [process_tool_call, hlook, hshow, hparse]
    refine ⟨hp, fun pre post => ?_⟩
    unfold dispatch_turn
    apply gatherExcept_error_mem
    rw [List.map_append, List.map_cons, hp]
    exact List.mem_append_right _ (List.mem_cons_self _ _)
  · intro hshow run hrun
    have hp : process_tool_call parses tools tc = .ok (toolArgumentErrorMessage tc) := by
      simp [process_tool_call, hlook, hshow, hrun, specBaseToolExecute, hparse,
        toolArgumentErrorMessage]
    exact ⟨hp, fun pre post res1 res2 h1 h2 =>
      dispatch_turn_append_ok parses tools pre post tc _ res1 res2 hp h1 h2⟩

/-- C6, witness: both branches of the amended theorem at concrete tools — a
stage-shown tool whose unparsable call aborts the one-call turn, and a
non-stage tool with the spec-modelled execute whose unparsable call yields an
error result in an otherwise intact turn. -/
theorem c6_parse_failure_witness :
    (process_tool_call (fun s => s == "good")
          [⟨"t", true, fun tc => ⟨"tool", "done", tc.id⟩⟩] ⟨"id1", "t", "bad"⟩ =
        .error () ∧
      dispatch_turn (fun s => s == "good")
          [⟨"t", true, fun tc => ⟨"tool", "done", tc.id⟩⟩]
          ([] ++ ⟨"id1", "t", "bad"⟩ :: []) = .error ()) ∧
    (process_tool_call (fun s => s == "good")
          [⟨"u", false,
            specBaseToolExecute (fun s => s == "good")
              (fun tc => ⟨"tool", "done", tc.id⟩)⟩] ⟨"id2", "u", "bad"⟩ =
        .ok (toolArgumentErrorMessage ⟨"id2", "u", "bad"⟩) ∧
      dispatch_turn (fun s => s == "good")
          [⟨"u", false,
            specBaseToolExecute (fun s => s == "good")
              (fun tc => ⟨"tool", "done", tc.id⟩)⟩]
          ([] ++ ⟨"id2", "u", "bad"⟩ :: []) =
        .ok ([] ++ toolArgumentErrorMessage ⟨"id2", "u", "bad"⟩ :: [])) := by
  constructor
  · have h := (c6_parse_failure_by_stage (fun s => s == "good")
        [⟨"t", true, fun tc => ⟨"tool", "done", tc.id⟩⟩] ⟨"id1", "t", "bad"⟩
        ⟨"t", true, fun tc => ⟨"tool", "done", tc.id⟩⟩ rfl rfl).1 rfl
    exact ⟨h.1, h.2 [] []⟩
  · have h := ((c6_parse_failure_by_stage (fun s => s == "good")
        [⟨"u", false,
          specBaseToolExecute (fun s => s == "good")
            (fun tc => ⟨"tool", "done", tc.id⟩)⟩] ⟨"id2", "u", "bad"⟩
        ⟨"u", false,
          specBaseToolExecute (fun s => s == "good")
            (fun tc => ⟨"tool", "done", tc.id⟩)⟩ rfl rfl).2 rfl
        (fun tc => ⟨"tool", "done", tc.id⟩) rfl)
    exact ⟨h.1, h.2 [] [] [] [] rfl rfl⟩

/-! ## Turn orchestration
`GeneralPurposeAgent.handle_request`, src/task/agent.py lines 117-144. -/

/-- Outcome of a `handle_request` run that did not run out of fuel: either
the final assistant turn together with the final history and the dispatched
batches, or `raised` — an exception escaped a dispatch's `asyncio.gather`
(agent.py line 130) and aborted the request. -/
inductive RunResult
  | ok (turn : AssistantTurn) (hist : List HistoryEntry)
      (dispatches : List (List ToolCallRecord))
  | raised
deriving Repr, DecidableEq

/-- `handle_request` (agent.py lines 117-144), abstracted over the provider
(mapping the current history to the finalized assistant turn of the next
round — the streaming and aggregation part, lines 32-115).  The per-call
processing is the `process_tool_call`/`dispatch_turn` embedding above, so an
exception escaping the gather aborts the run with `RunResult.raised`: nothing
is appended to the history and no recursion happens.  On a successful
dispatch the assistant turn and then the tool messages are appended to the
history and the run recurses.  `fuel` bounds the recursion depth (the Python
code recurses without bound); `none` models running out of fuel.  A completed
run also carries the dispatched tool-call batches, one per `asyncio.gather`,
in dispatch order. -/
def handleRequest (provider : List HistoryEntry → AssistantTurn)
    (parses : String → Bool) (tools : List RegisteredTool) :
    Nat → List HistoryEntry → Option RunResult
  | 0, _ => none
  | fuel + 1, hist =>
    let turn := provider hist
    if turn.tool_calls.isEmpty then some (.ok turn hist [])
    else
      match dispatch_turn parses tools turn.tool_calls with
      | .error _ => some .raised
      | .ok tool_messages =>
        let hist1 := (hist ++ [HistoryEntry.assistant turn]) ++
          tool_messages.map HistoryEntry.tool
        match handleRequest provider parses tools fuel hist1 with
        | none => none
        | some .raised => some .raised
        | some (.ok t hf ds) => some (.ok t hf (turn.tool_calls :: ds))

/-- C3, counterexample.  The claim says every turn whose finalized assistant
turn has a non-empty `tool_calls` list appends the assistant turn to the
history, appends each tool result, and then performs exactly one further
recursive turn.  Not so when the dispatch raises: here the single call is on
a registered stage-shown tool with unparsable arguments, so the unhandled
`json.loads` of agent.py line 176 escapes the gather of line 130 and the run
aborts — nothing is appended to the history and no further turn runs. -/
theorem c3_counterexample :
    handleRequest (fun _ => ⟨"", [⟨"id1", "t", "bad"⟩]⟩) (fun s => s == "good")
        [⟨"t", true, fun tc => ⟨"tool", "done", tc.id⟩⟩] 5 [] =
      some .raised ∧
    dispatch_turn (fun s => s == "good")
        [⟨"t", true, fun tc => ⟨"tool", "done", tc.id⟩⟩] [⟨"id1", "t", "bad"⟩] =
      .error () :=
  ⟨rfl, rfl⟩

/-- C3, amended: one orchestration turn.  With an empty `tool_calls` list no
dispatch happens (the dispatch trace is empty), the history is left untouched
and the finalized turn with its accumulated text is returned.  With a
non-empty list exactly one dispatch happens; if every per-call task returns
(the gather succeeds with messages `msgs`), the assistant turn is appended to
the history followed by the per-call results in the original `tool_calls`
order and exactly one further recursive turn runs (fuel decreases by one);
if the dispatch raises, the run aborts with nothing appended and no further
turn. -/
theorem c3_amended_orchestration_turn (provider : List HistoryEntry → AssistantTurn)
    (parses : String → Bool) (tools : List RegisteredTool) (fuel : Nat)
    (hist : List HistoryEntry) :
    ((provider hist).tool_calls = [] →
      handleRequest provider parses tools (fuel + 1) hist =
        some (.ok (provider hist) hist [])) ∧
    (∀ msgs, (provider hist).tool_calls ≠ [] →
      dispatch_turn parses tools (provider hist).tool_calls = .ok msgs →
      handleRequest provider parses tools (fuel + 1) hist =
        (handleRequest provider parses tools fuel
            ((hist ++ [HistoryEntry.assistant (provider hist)]) ++
              msgs.map HistoryEntry.tool)).map
          (fun r =>
            match r with
            | .raised => .raised
            | .ok t hf ds => .ok t hf ((provider hist).tool_calls :: ds))) ∧
    ((provider hist).tool_calls ≠ [] →
      dispatch_turn parses tools (provider hist).tool_calls = .error () →
      handleRequest provider parses tools (fuel + 1) hist = some .raised) := by
  refine ⟨?_, ?_, ?_⟩
  · intro h
    simp [handleRequest, h]
  · intro msgs h hd
    have hne : ((provider hist).tool_calls).isEmpty = false := by
      cases hcs : (provider hist).tool_calls with
      | nil => exact absurd hcs h
      | cons a l => rfl
    cases hrec : handleRequest provider parses tools fuel
        ((hist ++ [HistoryEntry.assistant (provider hist)]) ++
          msgs.map HistoryEntry.tool) with
    | none =>
      simp only [List.append_assoc, List.singleton_append] at hrec
      simp [handleRequest, hne, hd, hrec]
    | some r =>
      cases r with
      | raised =>
        simp only [List.append_assoc, List.singleton_append] at hrec
        simp [handleRequest, hne, hd, hrec]
      | ok t hf ds =>
        simp only [List.append_assoc, List.singleton_append] at hrec
        simp [handleRequest, hne, hd, hrec]
  · intro h hd
    have hne : ((provider hist).tool_calls).isEmpty = false := by
      cases hcs : (provider hist).tool_calls with
      | nil => exact absurd hcs h
      | cons a l => rfl
    simp [handleRequest, hne, hd]

/-- C3, witness: all three branches of the amended theorem at concrete
inputs — a provider requesting no tools, one whose single call dispatches
successfully, and one whose single call's dispatch raises. -/
theorem c3_amended_witness :
    handleRequest (fun _ => ⟨"done", []⟩) (fun s => s == "good")
        [⟨"t", true, fun tc => ⟨"tool", "done", tc.id⟩⟩] 1 [] =
      some (.ok ⟨"done", []⟩ [] []) ∧
    handleRequest (fun _ => ⟨"", [⟨"id1", "t", "good"⟩]⟩) (fun s => s == "good")
        [⟨"t", true, fun tc => ⟨"tool", "done", tc.id⟩⟩] 2 [] =
      (handleRequest (fun _ => ⟨"", [⟨"id1", "t", "good"⟩]⟩) (fun s => s == "good")
          [⟨"t", true, fun tc => ⟨"tool", "done", tc.id⟩⟩] 1
          (([] ++ [HistoryEntry.assistant ⟨"", [⟨"id1", "t", "good"⟩]⟩]) ++
            ([⟨"tool", "done", "id1"⟩] : List ToolMessage).map HistoryEntry.tool)).map
        (fun r =>
          match r with
          | .raised => .raised
          | .ok t hf ds => .ok t hf ([⟨"id1", "t", "good"⟩] :: ds)) ∧
    handleRequest (fun _ => ⟨"", [⟨"id2", "t", "bad"⟩]⟩) (fun s => s == "good")
        [⟨"t", true, fun tc => ⟨"tool", "done", tc.id⟩⟩] 3 [] = some .raised :=
  ⟨(c3_amended_orchestration_turn (fun _ => (⟨"done", []⟩ : AssistantTurn))
      (fun s => s == "good") [⟨"t", true, fun tc => ⟨"tool", "done", tc.id⟩⟩]
      0 []).1 rfl,
   (c3_amended_orchestration_turn
      (fun _ => (⟨"", [⟨"id1", "t", "good"⟩]⟩ : AssistantTurn))
      (fun s => s == "good") [⟨"t", true, fun tc => ⟨"tool", "done", tc.id⟩⟩]
      1 []).2.1 [⟨"tool", "done", "id1"⟩] (List.cons_ne_nil _ _) rfl,
   (c3_amended_orchestration_turn
      (fun _ => (⟨"", [⟨"id2", "t", "bad"⟩]⟩ : AssistantTurn))
      (fun s => s == "good") [⟨"t", true, fun tc => ⟨"tool", "done", tc.id⟩⟩]
      2 []).2.2 (List.cons_ne_nil _ _) rfl⟩

/-! ## MCP resource fetch
`MCPClient.get_resource`, src/task/tools/mcp/mcp_client.py lines 111-136.
Bytes are `Nat`s below 256; base64 text is its list of ASCII codes. -/

/-- ASCII code of the standard base64 alphabet character for a 6-bit value. -/
def b64encIdx (n : Nat) : Nat :=
  if n < 26 then 65 + n
  else if n < 52 then 97 + (n - 26)
  else if n < 62 then 48 + (n - 52)
  else if n = 62 then 43
  else 47

/-- 6-bit value of an ASCII code in the base64 alphabet (0 for codes outside
the alphabet). -/
def b64decIdx (c : Nat) : Nat :=
  if 65 ≤ c ∧ c ≤ 90 then c - 65
  else if 97 ≤ c ∧ c ≤ 122 then c - 97 + 26
  else if 48 ≤ c ∧ c ≤ 57 then c - 48 + 52
  else if c = 43 then 62
  else if c = 47 then 63
  else 0

/-- The provider-side encoding of binary resource payloads: standard base64
of the byte list, as ASCII codes, with 61 (the `=` sign) as padding. -/
def b64encode : List Nat → List Nat
  | [] => []
  | [a] => [b64encIdx (a / 4), b64encIdx (a % 4 * 16), 61, 61]
  | [a, b] =>
    [b64encIdx (a / 4), b64encIdx (a % 4 * 16 + b / 16), b64encIdx (b % 16 * 4), 61]
  | a :: b :: c :: rest =>
    b64encIdx (a / 4) :: b64encIdx (a % 4 * 16 + b / 16) ::
      b64encIdx (b % 16 * 4 + c / 64) :: b64encIdx (c % 64) :: b64encode rest

/-- `base64.b64decode`: four ASCII codes at a time, honoring `=` padding. -/
def b64decode : List Nat → List Nat
  | c1 :: c2 :: c3 :: c4 :: rest =>
    if c3 = 61 then [b64decIdx c1 * 4 + b64decIdx c2 / 16]
    else if c4 = 61 then
      [b64decIdx c1 * 4 + b64decIdx c2 / 16,
       b64decIdx c2 % 16 * 16 + b64decIdx c3 / 4]
    else
      (b64decIdx c1 * 4 + b64decIdx c2 / 16) ::
        (b64decIdx c2 % 16 * 16 + b64decIdx c3 / 4) ::
        (b64decIdx c3 % 4 * 64 + b64decIdx c4) :: b64decode rest
  | _ => []

/-- The base64 alphabet maps are inverse on 6-bit values. -/
theorem b64decIdx_encIdx (n : Nat) (h : n < 64) : b64decIdx (b64encIdx n) = n := by
  have hf : ∀ m : Fin 64, b64decIdx (b64encIdx m.val) = m.val := by decide
  exact hf ⟨n, h⟩

/-- No 6-bit value encodes to the padding sign 61. -/
theorem b64encIdx_ne_61 (n : Nat) (h : n < 64) : b64encIdx n ≠ 61 := by
  have hf : ∀ m : Fin 64, b64encIdx m.val ≠ 61 := by decide
  exact hf ⟨n, h⟩

/-- decode(encode(bytes)) == bytes: base64 round-trips every byte list. -/
theorem b64decode_encode : ∀ (bs : List Nat), (∀ x ∈ bs, x < 256) →
    b64decode (b64encode bs) = bs
  | [], _ => rfl
  | [a], h => by
    have ha : a < 256 := h a (by simp)
    have e1 := b64decIdx_encIdx (a / 4) (by omega)
    have e2 := b64decIdx_encIdx (a % 4 * 16) (by omega)
    simp [b64encode, b64decode, e1, e2]
    omega
  | [a, b], h => by
    have ha : a < 256 := h a (by simp)
    have hb : b < 256 := h b (by simp)
    have hne : b64encIdx (b % 16 * 4) ≠ 61 := b64encIdx_ne_61 _ (by omega)
    have e1 := b64decIdx_encIdx (a / 4) (by omega)
    have e2 := b64decIdx_encIdx (a % 4 * 16 + b / 16) (by omega)
    have e3 := b64decIdx_encIdx (b % 16 * 4) (by omega)
    simp [b64encode, b64decode, hne, e1, e2, e3]
    omega
  | a :: b :: c :: rest, h => by
    have ha : a < 256 := h a (by simp)
    have hb : b < 256 := h b (by simp)
    have hc : c < 256 := h c (by simp)
    have ih := b64decode_encode rest (fun x hx => h x (by simp [hx]))
    have hne3 : b64encIdx (b % 16 * 4 + c / 64) ≠ 61 := b64encIdx_ne_61 _ (by omega)
    have hne4 : b64encIdx (c % 64) ≠ 61 := b64encIdx_ne_61 _ (by omega)
    have e1 := b64decIdx_encIdx (a / 4) (by omega)
    have e2 := b64decIdx_encIdx (a % 4 * 16 + b / 16) (by omega)
    have e3 := b64decIdx_encIdx (b % 16 * 4 + c / 64) (by omega)
    have e4 := b64decIdx_encIdx (c % 64) (by omega)
    simp [b64encode, b64decode, hne3, hne4, e1, e2, e3, e4, ih]
    omega

/-- A content item of a `ReadResourceResult`: the mcp library types each item
as `TextResourceContents` (a text string) or `BlobResourceContents`
(base64-encoded bytes). -/
inductive ResourceContents
  | text (s : String)
  | blob (b64 : List Nat)
deriving Repr, DecidableEq

/-- `MCPClient.get_resource` (mcp_client.py lines 111-136): take the first
content item; a text item is returned as the exact string, a blob item is
base64-decoded to bytes; with no items, empty bytes. -/
def get_resource (contents : List ResourceContents) : String ⊕ List Nat :=
  match contents with
  | [] => Sum.inr []
  | item :: _ =>
    match item with
    | .text s => Sum.inl s
    | .blob b => Sum.inr (b64decode b)

/-- C8: a fetch whose first item is text-tagged returns the exact original
string; one whose first item is binary-tagged returns exactly the original
bytes (decode of the provider's base64 encoding); with no content items the
empty byte sequence is returned. -/
theorem c8_get_resource_roundtrip (s : String) (bs : List Nat)
    (rest : List ResourceContents) (h : ∀ x ∈ bs, x < 256) :
    get_resource (ResourceContents.text s :: rest) = Sum.inl s ∧
    get_resource (ResourceContents.blob (b64encode bs) :: rest) = Sum.inr bs ∧
    get_resource [] = Sum.inr [] := by
  refine ⟨rfl, ?_, rfl⟩
  simp [get_resource, b64decode_encode bs h]

/-- C8, witness: the round-trip at a concrete string and concrete bytes. -/
theorem c8_get_resource_witness :
    (∀ x ∈ [0, 127, 255], x < 256) ∧
    (get_resource [ResourceContents.text "hello"] = Sum.inl "hello" ∧
     get_resource [ResourceContents.blob (b64encode [0, 127, 255])] =
       Sum.inr [0, 127, 255] ∧
     get_resource [] = Sum.inr []) :=
  ⟨by decide, c8_get_resource_roundtrip "hello" [0, 127, 255] [] (by decide)⟩

/-! ## RAG document cache key
`RagTool._execute`, src/task/tools/rag/rag_tool.py line 121:
`cache_document_key = f"{conversation_id}:{file_url}"` (an f-string holding
the conversation id, a colon, and the file url). -/

/-- The colon character (ASCII 58) used as the key separator. -/
def colon : Char := Char.ofNat 58

/-- The composite document-cache key: conversation id, colon, file url. -/
def cache_document_key (conversation_id file_url : String) : String :=
  conversation_id ++ String.singleton colon ++ file_url

/-- C9, counterexample.  The claim says the key function is injective on
(conversation_id, file_url) pairs.  It is not: the separator also occurs in
the inputs (file urls contain colons), so the distinct pairs ("a:b", "c") and
("a", "b:c") share the key "a:b:c". -/
theorem c9_counterexample :
    cache_document_key "a:b" "c" = cache_document_key "a" "b:c" ∧
    ¬("a:b" = "a" ∧ "c" = "b:c") := by
  constructor
  · rfl
  · decide

/-- Splitting on a separator absent from both prefixes is unambiguous. -/
theorem sep_append_inj (c : Char) (l1 : List Char) :
    ∀ (l2 r1 r2 : List Char), c ∉ l1 → c ∉ l2 →
      l1 ++ c :: r1 = l2 ++ c :: r2 → l1 = l2 ∧ r1 = r2 := by
  induction l1 with
  | nil =>
    intro l2 r1 r2 h1 h2 h
    cases l2 with
    | nil =>
      simp only [List.nil_append] at h
      exact ⟨rfl, (List.cons.injEq _ _ _ _ ▸ h).2⟩
    | cons y l2 =>
      simp only [List.nil_append, List.cons_append, List.cons.injEq] at h
      exfalso
      apply h2
      rw [← h.1]
      exact List.mem_cons_self _ _
  | cons x l1 ih =>
    intro l2 r1 r2 h1 h2 h
    cases l2 with
    | nil =>
      simp only [List.nil_append, List.cons_append, List.cons.injEq] at h
      exfalso
      apply h1
      rw [h.1]
      exact List.mem_cons_self _ _
    | cons y l2 =>
      simp only [List.cons_append, List.cons.injEq] at h
      have hrec := ih l2 r1 r2
        (fun hm => h1 (List.mem_cons_of_mem _ hm))
        (fun hm => h2 (List.mem_cons_of_mem _ hm)) h.2
      exact ⟨by rw [h.1, hrec.1], hrec.2⟩

/-- C9, amended: the composite key separates conversations whose ids are
colon-free — for conversation ids that do not contain the separator, equal
keys force equal (conversation_id, file_url) pairs.  (Per the counterexample
this fails when a conversation id itself contains a colon.) -/
theorem c9_amended_key_injective (c1 u1 c2 u2 : String)
    (h1 : colon ∉ c1.data) (h2 : colon ∉ c2.data)
    (h : cache_document_key c1 u1 = cache_document_key c2 u2) :
    c1 = c2 ∧ u1 = u2 := by
  obtain ⟨d1⟩ := c1
  obtain ⟨d2⟩ := c2
  obtain ⟨e1⟩ := u1
  obtain ⟨e2⟩ := u2
  have hd : d1 ++ colon :: e1 = d2 ++ colon :: e2 := by
    have hdata := congrArg String.data h
    simpa [cache_document_key, String.singleton] using hdata
  obtain ⟨hc, hu⟩ := sep_append_inj colon d1 d2 e1 e2 h1 h2 hd
  exact ⟨by rw [hc], by rw [hu]⟩

/-- C9, witness: the amended theorem at a concrete colon-free conversation id
and file url. -/
theorem c9_amended_witness :
    (colon ∉ "conv1".data ∧
      cache_document_key "conv1" "fileA" = cache_document_key "conv1" "fileA") ∧
    ("conv1" = "conv1" ∧ "fileA" = "fileA") :=
  ⟨⟨by decide, rfl⟩,
    c9_amended_key_injective "conv1" "fileA" "conv1" "fileA"
      (by decide) (by decide) rfl⟩

/-! ## Interpreter output truncation
`PythonCodeInterpreterTool._execute`, src/task/tools/py_interpreter/
python_code_interpreter_tool.py lines 351-357.  Python strings are character
sequences, modelled as `List Char` so that slicing is `List.take`. -/

/-- `output[:1000] + "..." if len(output) > 1000 else output`. -/
def truncateOutput (output : List Char) : List Char :=
  if output.length > 1000 then output.take 1000 ++ "...".data else output

/-- Step 12 of `_execute`: `if execution_result.output:` guards the list
comprehension rebuilding `execution_result.output` (a falsy — absent or
empty — output list is left untouched), mapping the cut over every entry. -/
def truncate_outputs (outputs : List (List Char)) : List (List Char) :=
  if outputs.isEmpty then outputs else outputs.map truncateOutput

/-- Every truncated entry fits in 1003 characters. -/
theorem truncateOutput_length (o : List Char) : (truncateOutput o).length ≤ 1003 := by
  unfold truncateOutput
  split
  · simp [List.length_take]
  · omega

/-- C10: every entry of the rewritten output list has at most 1003
characters, entries of at most 1000 characters are kept unchanged, and
longer ones are replaced by their first 1000 characters followed by three
dots. -/
theorem c10_output_truncation (outputs : List (List Char)) (s : List Char)
    (hs : s ∈ truncate_outputs outputs) :
    s.length ≤ 1003 ∧
    ∀ o ∈ outputs,
      (o.length ≤ 1000 → truncateOutput o = o) ∧
      (1000 < o.length → truncateOutput o = o.take 1000 ++ "...".data) := by
  constructor
  · unfold truncate_outputs at hs
    split at hs
    · rename_i hemp
      rw [List.isEmpty_iff] at hemp
      rw [hemp] at hs
      cases hs
    · obtain ⟨o, _, rfl⟩ := List.mem_map.mp hs
      exact truncateOutput_length o
  · intro o _
    constructor
    · intro hlen
      unfold truncateOutput
      rw [if_neg (by omega)]
    · intro hlen
      unfold truncateOutput
      rw [if_pos (by omega)]

/-- C10, witness: the theorem at a concrete one-entry output list. -/
theorem c10_output_witness :
    ([Char.ofNat 97] : List Char).length ≤ 1003 ∧
    ∀ o ∈ [[Char.ofNat 97]],
      (o.length ≤ 1000 → truncateOutput o = o) ∧
      (1000 < o.length → truncateOutput o = o.take 1000 ++ "...".data) :=
  c10_output_truncation [[Char.ofNat 97]] [Char.ofNat 97] (by decide)

end Agent
